import Mathlib

/-!
Shallow embedding of the recipient/certificate matching-and-templating
pipeline of the email-automation repository.  The repository contains two
application variants:

* `dynamic_personalised_email_automation.py` — class `EmailAutomation`
  (`match_certificate`, `create_message`, `send_emails` with a 3-attempt
  retry loop, `_clean_text`), one SMTP session opened by `setup_smtp`
  before the loop, certificates and additional attachments buffered as
  bytes in `main`.  Modelled below with `dyn`-named definitions and the
  source method names `match_certificate`, `create_message`,
  `is_valid_email`, `clean_text`.

* `final_email_automation.py` — the "Send Emails" handler: exact-key
  certificate dictionary (`normKeyFinal`, `certKeyFinal`,
  `buildMatchedFiles`), `\n` → `<br>` body conversion
  (`finalRenderBody`), per-recipient attachment-stream reads
  (`streamRead`) and a fresh SMTP session per message, all inside one
  `try`/`except` so that any exception aborts the remaining recipients.
  Modelled below with `final`-named definitions.

Strings are modelled as `List Char`, file payloads as `List Nat`
(byte lists).  Python `str.format(**row)` is modelled by
`formatTemplate`, restricted to the simple `{field}` placeholders the
application documents (`{{`/`}}` escapes are literal braces, a lone
brace or a brace inside a field name is a `ValueError`, a missing field
is a `KeyError`); an empty `{}` placeholder also raises in Python
(`IndexError`) and is mapped to the missing-key error for key `[]`.
-/

/-- Convert a string literal to the `List Char` representation used throughout. -/
def strL (s : String) : List Char := s.data

/-- Characters treated as whitespace by Python's `str.strip`/`str.split`
(restricted to the code points that can occur in this application's inputs;
`​` is *not* whitespace in Python and is excluded). -/
def isPySpace (c : Char) : Bool :=
  c == ' ' || c == '\t' || c == '\n' || c == '\r' || c == '\x0B' || c == '\x0C' || c == '\xA0'

/-- Python `str.lower` (ASCII-faithful). -/
def pyLower (s : List Char) : List Char := s.map Char.toLower

/-- Drop trailing characters satisfying `p`. -/
def dropEndWhile (p : Char → Bool) (l : List Char) : List Char :=
  (l.reverse.dropWhile p).reverse

/-- Python `str.strip()` with no argument: remove leading and trailing whitespace. -/
def pyStrip (l : List Char) : List Char :=
  dropEndWhile isPySpace (l.dropWhile isPySpace)

/-- Helper for `pyWords`: accumulate the current word (reversed) while scanning. -/
def pyWordsAux : List Char → List Char → List (List Char)
  | [], acc => if acc.isEmpty then [] else [acc.reverse]
  | c :: rest, acc =>
    if isPySpace c then
      if acc.isEmpty then pyWordsAux rest [] else acc.reverse :: pyWordsAux rest []
    else pyWordsAux rest (c :: acc)

/-- Python `str.split()` with no argument: maximal runs of non-whitespace. -/
def pyWords (s : List Char) : List (List Char) := pyWordsAux s []

/-- `sep.join(pieces)` on character lists. -/
def interJoin (sep : List Char) : List (List Char) → List Char
  | [] => []
  | [x] => x
  | x :: y :: rest => x ++ sep ++ interJoin sep (y :: rest)

/-- `EmailAutomation._clean_text` of the dynamic variant: replace non-breaking
spaces by plain spaces, delete zero-width spaces, strip, and collapse every
whitespace run to a single space (`' '.join(text.split())`).  The final
UTF-8 encode/decode round-trip in the source is the identity on the scalar
values modelled here. -/
def clean_text (s : List Char) : List Char :=
  let s1 := (s.map (fun c => if c = '\xA0' then ' ' else c)).filter (fun c => c ≠ '\u200B')
  interJoin [' '] (pyWords (pyStrip s1))

/-- Does `hay` start with `needle`? (Model of Python string containment, step 1.) -/
def startsWithL : List Char → List Char → Bool
  | [], _ => true
  | _ :: _, [] => false
  | a :: as, b :: bs => a == b && startsWithL as bs

/-- Python's `needle in hay` substring containment on strings. -/
def containsSub (needle : List Char) : List Char → Bool
  | [] => needle.isEmpty
  | b :: bs => startsWithL needle (b :: bs) || containsSub needle bs

/-- Failure modes of Python `str.format` relevant here: a placeholder key
absent from the field map (`KeyError`) or malformed braces (`ValueError`). -/
inductive FmtErr where
  | missingKey (k : List Char)
  | badBrace
  deriving DecidableEq, Repr

/-- First-match association-list lookup (Python `dict` access for the
dictionaries built here, whose insert replaces existing keys in place). -/
def assocLookup {α : Type} (k : List Char) : List (List Char × α) → Option α
  | [] => none
  | (k2, v) :: rest => if k = k2 then some v else assocLookup k rest

/-- A recipient row: ordered field map from column name to value. -/
abbrev Row := List (List Char × List Char)

/-- Worker for `formatTemplate`.  The first argument is `none` while scanning
literal text and `some acc` (reversed key characters) inside a `{...}`
placeholder. -/
def formatAux (flds : Row) : Option (List Char) → List Char → Except FmtErr (List Char)
  | none, [] => .ok []
  | none, '{' :: '{' :: rest => (fun s => '{' :: s) <$> formatAux flds none rest
  | none, '}' :: '}' :: rest => (fun s => '}' :: s) <$> formatAux flds none rest
  | none, '{' :: rest => formatAux flds (some []) rest
  | none, '}' :: _ => .error .badBrace
  | none, c :: rest => (fun s => c :: s) <$> formatAux flds none rest
  | some _, [] => .error .badBrace
  | some acc, '}' :: rest =>
    match assocLookup acc.reverse flds with
    | some v => (fun s => v ++ s) <$> formatAux flds none rest
    | none => .error (.missingKey acc.reverse)
  | some _, '{' :: _ => .error .badBrace
  | some acc, c :: rest => formatAux flds (some (c :: acc)) rest

/-- Python `template.format(**flds)` for the simple `{field}` placeholders
used by both variants. -/
def formatTemplate (flds : Row) (tmpl : List Char) : Except FmtErr (List Char) :=
  formatAux flds none tmpl

/-- A composed multipart email: headers, HTML body and ordered attachments
(display name, payload bytes). -/
structure EmailMsg where
  sender : List Char
  recip : List Char
  subject : List Char
  body : List Char
  atts : List (List Char × List Nat)
  deriving DecidableEq, Repr

/-- Characters allowed in the local part by the validation pattern
`[a-zA-Z0-9._%+-]`. -/
def isLocalChar (c : Char) : Bool :=
  c.isAlpha || c.isDigit || c == '.' || c == '_' || c == '%' || c == '+' || c == '-'

/-- Characters allowed in the domain part by the pattern `[a-zA-Z0-9.-]`. -/
def isDomainChar (c : Char) : Bool :=
  c.isAlpha || c.isDigit || c == '.' || c == '-'

/-- ASCII letter, the pattern's `[a-zA-Z]`. -/
def isAsciiAlpha (c : Char) : Bool := c.isAlpha

/-- Is the head of the list the given character? -/
def headIs (c : Char) : List Char → Bool
  | x :: _ => x == c
  | [] => false

/-- Is the head of the list an ASCII letter? -/
def headAlpha : List Char → Bool
  | x :: _ => isAsciiAlpha x
  | [] => false

/-- `[a-zA-Z]{2,}` anchored to the end of the string. -/
def tldOk (t : List Char) : Bool := t.all isAsciiAlpha && 2 ≤ t.length

/-- The part of the pattern after `@`: `[a-zA-Z0-9.-]+\.[a-zA-Z]{2,}`
anchored to the end, rendered as a search over the split position of the
final dot. -/
def domainMatch (s2 : List Char) : Bool :=
  (List.range s2.length).any (fun j =>
    headIs '.' (s2.drop j) && !(s2.take j).isEmpty && (s2.take j).all isDomainChar
      && tldOk (s2.drop (j + 1)))

/-- Full anchored match of `^[a-zA-Z0-9._%+-]+@[a-zA-Z0-9.-]+\.[a-zA-Z]{2,}$`,
rendered as a search over the split position of the `@`. -/
def emailMatch (s : List Char) : Bool :=
  (List.range s.length).any (fun i =>
    headIs '@' (s.drop i) && !(s.take i).isEmpty && (s.take i).all isLocalChar
      && domainMatch (s.drop (i + 1)))

/-- `EmailValidator.is_valid_email` / `is_valid_email`: Python
`re.match(r'^[a-zA-Z0-9._%+-]+@[a-zA-Z0-9.-]+\.[a-zA-Z]{2,}$', email)`.
Python's `$` also matches just before a single newline at the end of the
string, hence the second disjunct. -/
def is_valid_email (s : List Char) : Bool :=
  emailMatch s ||
    (match s.getLast? with
     | some c => c == '\n' && emailMatch s.dropLast
     | none => false)

/-- The documented pattern, written directly as the spec states it: a
non-empty local part of allowed characters, `@`, a non-empty domain of
allowed characters, a dot, and a TLD of two or more letters. -/
def docPattern (s : List Char) : Prop :=
  ∃ loc d t, s = loc ++ '@' :: (d ++ '.' :: t) ∧ loc ≠ [] ∧ loc.all isLocalChar = true ∧
    d ≠ [] ∧ d.all isDomainChar = true ∧ t.all isAsciiAlpha = true ∧ 2 ≤ t.length

/-- The local part of an address string: everything before the first `@`. -/
def localPart (s : List Char) : List Char := s.takeWhile (fun c => c != '@')

/-- Does the string contain a dot immediately followed by at least two
letters (the weakest sense in which it can be said to contain a 2+-letter
TLD after a dot)? -/
def hasDotTwoAlpha (s : List Char) : Bool :=
  (List.range s.length).any (fun i =>
    headIs '.' (s.drop i) && headAlpha (s.drop (i + 1)) && headAlpha (s.drop (i + 2)))

deriving instance DecidableEq for Except

/-- An uploaded file buffered as bytes: `(display name, content)`, the form
in which the dynamic variant's `main` holds certificates and additional
attachments after `file.read()`. -/
abbrev BufFile := List Char × List Nat

/-- Loop body of `EmailAutomation.match_certificate`: return the first
certificate whose full lowercased file name contains `key` as a substring. -/
def matchCertAux (key : List Char) : List BufFile → Option BufFile
  | [] => none
  | (nm, content) :: rest =>
    if containsSub key (pyLower nm) then some (nm, content) else matchCertAux key rest

/-- `EmailAutomation.match_certificate`: lowercase and strip the recipient
name, then scan the certificate list in order testing
`recipient_name in cert_name.lower()`. -/
def match_certificate (certs : List BufFile) (recipientName : List Char) : Option BufFile :=
  matchCertAux (pyStrip (pyLower recipientName)) certs

/-- `EmailAutomation.create_message`: clean both templates and every row
value with `_clean_text`, substitute the row into subject and content
(a missing placeholder raises `KeyError`), then attach the HTML body, the
matched certificate (if any) under its cleaned name, and every additional
attachment.  Newlines are *not* converted to `<br>` in this variant. -/
def create_message (sender : List Char) (row : Row) (subjT bodyT : List Char)
    (cert : Option BufFile) (consts : List BufFile) : Except FmtErr EmailMsg :=
  match formatTemplate (row.map (fun p => (p.1, clean_text p.2))) (clean_text subjT) with
  | .error e => .error e
  | .ok subj =>
    match formatTemplate (row.map (fun p => (p.1, clean_text p.2))) (clean_text bodyT) with
    | .error e => .error e
    | .ok body =>
      .ok { sender := sender, recip := (assocLookup (strL "email") row).getD [],
            subject := subj, body := body,
            atts := (match cert with
                     | some c => [(clean_text c.1, c.2)]
                     | none => []) ++ consts.map (fun c => (clean_text c.1, c.2)) }

/-- Observable events of a campaign run: SMTP session lifecycle, one send
attempt (`smtp_server.send_message`), the fixed 2-second inter-retry sleep,
and the 1-second pacing sleep after a successful send. -/
inductive Ev where
  | sessionOpen
  | sendAttempt
  | retrySleep
  | paceSleep
  | sessionClose
  deriving DecidableEq, Repr

/-- Terminal classification of one recipient in the dynamic variant's
`send_emails` loop: either the message was sent, or all retries were
exhausted. -/
inductive DynOut where
  | sent (m : EmailMsg)
  | failedAfterRetries
  deriving DecidableEq, Repr

/-- Per-recipient result of the dynamic variant: outcome, number of
attempts executed, number of inter-retry delays slept, and the events
emitted while processing this recipient. -/
structure DynRes where
  out : DynOut
  attempts : Nat
  retryDelays : Nat
  events : List Ev
  deriving DecidableEq, Repr

/-- One iteration of the dynamic variant's `try` block for attempt `k`:
`create_message` is re-run each iteration (a `KeyError` there is caught by
the same `except`), then `send_message` is called; `none` means the
iteration raised. -/
def attemptOf (msgRes : Except FmtErr EmailMsg) (tr : Nat → Bool) (k : Nat) :
    Option EmailMsg :=
  match msgRes with
  | .ok m => if tr k then some m else none
  | .error _ => none

/-- The `retries = 3; while retries > 0: ...` loop of
`EmailAutomation.send_emails`: on an exception, decrement `retries` and
sleep 2 seconds if any retries remain; on success, sleep 1 second and
break; when retries are exhausted the recipient is recorded as failed. -/
def dynRetry (att : Nat → Option EmailMsg) : Nat → Nat → Nat → List Ev → DynRes
  | 0, k, d, evs => ⟨.failedAfterRetries, k, d, evs⟩
  | fuel + 1, k, d, evs =>
    match att k with
    | some m => ⟨.sent m, k + 1, d, evs ++ [.sendAttempt, .paceSleep]⟩
    | none =>
      if fuel = 0 then ⟨.failedAfterRetries, k + 1, d, evs ++ [.sendAttempt]⟩
      else dynRetry att fuel (k + 1) (d + 1) (evs ++ [.sendAttempt, .retrySleep])

/-- Body of the dynamic variant's per-recipient loop: strip the row's
name, match a certificate, then run the 3-attempt retry loop; `tr k` tells
whether the transport accepts attempt `k` for this recipient. -/
def processDynRecip (sender : List Char) (certs consts : List BufFile)
    (subjT bodyT : List Char) (tr : Nat → Bool) (row : Row) : DynRes :=
  dynRetry
    (attemptOf
      (create_message sender row subjT bodyT
        (match_certificate certs (pyStrip ((assocLookup (strL "name") row).getD []))) consts)
      tr)
    3 0 0 []

/-- The `for idx, row in recipients_df.iterrows()` loop of `send_emails`,
carrying the running row index so that `tr i` is recipient `i`'s transport
behaviour. -/
def dynCampaignAux (sender : List Char) (certs consts : List BufFile)
    (subjT bodyT : List Char) (tr : Nat → Nat → Bool) : Nat → List Row → List DynRes
  | _, [] => []
  | i, row :: rest =>
    processDynRecip sender certs consts subjT bodyT (tr i) row ::
      dynCampaignAux sender certs consts subjT bodyT tr (i + 1) rest

/-- `EmailAutomation.send_emails` over the whole validated recipient table. -/
def dynCampaign (sender : List Char) (certs consts : List BufFile)
    (subjT bodyT : List Char) (tr : Nat → Nat → Bool) (rows : List Row) : List DynRes :=
  dynCampaignAux sender certs consts subjT bodyT tr 0 rows

/-- Event trace of one whole dynamic-variant run: `main` calls
`setup_smtp` once (one session open) before `send_emails`, and the
`finally` block quits the session once at the end. -/
def dynRunEvents (sender : List Char) (certs consts : List BufFile)
    (subjT bodyT : List Char) (tr : Nat → Nat → Bool) (rows : List Row) : List Ev :=
  Ev.sessionOpen ::
    ((dynCampaign sender certs consts subjT bodyT tr rows).map DynRes.events).flatten
    ++ [Ev.sessionClose]

/-- Line 263 of the dynamic variant's `main`:
`content_template = ' '.join(content_template.split())` applied to the
authored body before `send_emails` is ever called. -/
def dynPrepareContent (raw : List Char) : List Char :=
  interJoin [' '] (pyWords raw)

/-- An uploaded file as the final variant holds it: a Streamlit
`UploadedFile`, i.e. a *stream* with a name, full content, and a current
read position.  `read()` returns only the bytes after the position and
leaves the position at the end. -/
structure FStream where
  name : List Char
  content : List Nat
  pos : Nat
  deriving DecidableEq, Repr

/-- `stream.read()`: the remainder of the content, and the stream with its
position advanced to the end. -/
def streamRead (s : FStream) : List Nat × FStream :=
  (s.content.drop s.pos, { s with pos := s.content.length })

/-- `os.path.splitext(fname)[0]` for a bare file name: everything before
the last dot, unless every character before that dot is itself a dot (the
leading-dots rule of CPython, under which no extension is split off). -/
def splitextStem (fname : List Char) : List Char :=
  let revName := fname.reverse
  let revExt := revName.takeWhile (fun c => c ≠ '.')
  if revExt.length = revName.length then fname
  else
    let stem := (revName.drop (revExt.length + 1)).reverse
    if stem.all (fun c => c = '.') then fname else stem

/-- The final variant's name normalization,
`.strip().lower().replace(" ", "")`: strip, lowercase, and delete plain
spaces (underscores and all other characters are kept). -/
def normKeyFinal (s : List Char) : List Char :=
  (pyLower (pyStrip s)).filter (fun c => c ≠ ' ')

/-- The key under which a certificate file is stored:
`os.path.splitext(cert.name)[0].strip().lower().replace(" ", "")`. -/
def certKeyFinal (fname : List Char) : List Char :=
  normKeyFinal (splitextStem fname)

/-- Python `dict` insert: replace the value of an existing key in place,
else append the new binding. -/
def dictInsert (d : List (List Char × Nat)) (k : List Char) (v : Nat) :
    List (List Char × Nat) :=
  if d.any (fun p => p.1 = k) then d.map (fun p => if p.1 = k then (k, v) else p)
  else d ++ [(k, v)]

/-- Loop building `matched_files`, mapping each certificate key to the
*index* of the certificate stream (a later file with the same key
overwrites an earlier one, as in a Python dict). -/
def buildDictAux (certs : List FStream) (i : Nat) (d : List (List Char × Nat)) :
    List (List Char × Nat) :=
  match certs with
  | [] => d
  | c :: rest => buildDictAux rest (i + 1) (dictInsert d (certKeyFinal c.name) i)

/-- The `matched_files` dictionary of the final variant's handler. -/
def buildMatchedFiles (certs : List FStream) : List (List Char × Nat) :=
  buildDictAux certs 0 []

/-- Read the stream at index `i` of the list, returning the bytes obtained
and the updated list (out-of-range reads return no bytes and change
nothing; they cannot occur for indices stored in `matched_files`). -/
def readStreamAt (l : List FStream) (i : Nat) : List Nat × List FStream :=
  match l[i]? with
  | some s =>
    let (bs, s') := streamRead s
    (bs, l.set i s')
  | none => ([], l)

/-- `for const_file in constant_attachments: part.set_payload(const_file.read())`:
read every constant-attachment stream in order, returning the
`(name, payload)` pairs attached and the mutated streams. -/
def readConsts : List FStream → List (List Char × List Nat) × List FStream
  | [] => ([], [])
  | s :: rest =>
    let (bs, s') := streamRead s
    let (others, rest') := readConsts rest
    ((s.name, bs) :: others, s' :: rest')

/-- `email_content.replace("\n", "<br>")`: every newline becomes the HTML
line-break marker. -/
def replaceNl (s : List Char) : List Char :=
  (s.map (fun c => if c = '\n' then strL "<br>" else [c])).flatten

/-- Line 129 of the final variant:
`body = email_content.replace("\n", "<br>").format(**row)` — newline
conversion happens *before* placeholder substitution. -/
def finalRenderBody (flds : Row) (bodyT : List Char) : Except FmtErr (List Char) :=
  formatTemplate flds (replaceNl bodyT)

/-- Per-recipient outcome in the final variant: a sent message, or a
skipped recipient (the warning names the *normalized* key). -/
inductive FOut where
  | sent (m : EmailMsg)
  | skippedNoCert (nameKey : List Char)
  deriving DecidableEq, Repr

/-- Exceptions that escape the final variant's per-recipient code and hit
the single `except` around the whole loop, aborting the campaign. -/
inductive FAbort where
  | templateErr (e : FmtErr)
  | sendErr
  deriving DecidableEq, Repr

/-- Mutable state threaded through the final variant's loop: the
certificate and constant-attachment streams, the number of send calls so
far, and the number of SMTP sessions opened so far. -/
structure FinalSt where
  certs : List FStream
  consts : List FStream
  sends : Nat
  opens : Nat
  deriving DecidableEq, Repr

/-- One iteration of the final variant's `for index, row in data.iterrows()`
body: normalize the row's name, look it up in `matched_files`; on a hit,
format subject and body (a `KeyError` escapes), read the certificate
stream and every constant stream, open a fresh SMTP session and send
(`tr st.sends` tells whether this send call succeeds; a failure escapes).
On a miss, warn and skip.  Returns the outcome or escaping exception, and
the updated state. -/
def finalStep (senderE subjT bodyT : List Char) (tr : Nat → Bool)
    (dict : List (List Char × Nat)) (st : FinalSt) (row : Row) :
    Except FAbort FOut × FinalSt :=
  let nameKey := normKeyFinal ((assocLookup (strL "name") row).getD [])
  let recipEmail := (assocLookup (strL "email") row).getD []
  match assocLookup nameKey dict with
  | some idx =>
    match formatTemplate row subjT with
    | .error e => (.error (.templateErr e), st)
    | .ok subj =>
      match finalRenderBody row bodyT with
      | .error e => (.error (.templateErr e), st)
      | .ok body =>
        let (certBytes, certs') := readStreamAt st.certs idx
        let certName := match st.certs[idx]? with
          | some s => s.name
          | none => []
        let (constAtts, consts') := readConsts st.consts
        let msg : EmailMsg :=
          { sender := senderE, recip := recipEmail, subject := subj, body := body,
            atts := (certName, certBytes) :: constAtts }
        let st' : FinalSt :=
          { certs := certs', consts := consts', sends := st.sends + 1, opens := st.opens + 1 }
        if tr st.sends then (.ok (.sent msg), st') else (.error .sendErr, st')
  | none => (.ok (.skippedNoCert nameKey), st)

/-- Aggregate result of a final-variant run: outcomes of the recipients
processed before any abort, the escaping exception if one occurred, and
the total number of SMTP sessions opened. -/
structure FinalRun where
  outcomes : List FOut
  aborted : Option FAbort
  opens : Nat
  deriving DecidableEq, Repr

/-- The final variant's recipient loop.  The whole loop sits inside a
single `try`/`except`, so the first escaping exception discards all
remaining recipients. -/
def finalLoop (senderE subjT bodyT : List Char) (tr : Nat → Bool)
    (dict : List (List Char × Nat)) : FinalSt → List Row → FinalRun
  | st, [] => ⟨[], none, st.opens⟩
  | st, row :: rest =>
    match finalStep senderE subjT bodyT tr dict st row with
    | (.ok o, st') =>
      let r := finalLoop senderE subjT bodyT tr dict st' rest
      ⟨o :: r.outcomes, r.aborted, r.opens⟩
    | (.error e, st') => ⟨[], some e, st'.opens⟩

/-- The final variant's "Send Emails" handler over a validated table:
build `matched_files` from the uploaded certificate streams, then run the
loop starting from fresh streams and zero sessions. -/
def finalRun (senderE subjT bodyT : List Char) (tr : Nat → Bool)
    (certs consts : List FStream) (rows : List Row) : FinalRun :=
  finalLoop senderE subjT bodyT tr (buildMatchedFiles certs)
    ⟨certs, consts, 0, 0⟩ rows

/-- Recipient row for Ana, as produced from the uploaded sheet. -/
def rowAna : Row := [(strL "name", strL "Ana"), (strL "email", strL "a@x.com")]

/-- Recipient row for Bo, as produced from the uploaded sheet. -/
def rowBo : Row := [(strL "name", strL "Bo"), (strL "email", strL "b@x.com")]

/-- Uploaded certificate stream `Ana.pdf`. -/
def certAnaS : FStream := ⟨strL "Ana.pdf", [7, 8, 9], 0⟩

/-- Uploaded certificate stream `Bo.pdf`. -/
def certBoS : FStream := ⟨strL "Bo.pdf", [20, 21], 0⟩

/-- Uploaded constant-attachment stream `c.pdf` with non-empty content. -/
def constS : FStream := ⟨strL "c.pdf", [1, 2, 3], 0⟩

/-- C3: the campaign over recipients Ana and Bo with primary files
`["Ana.pdf"]` and no constant attachments, under the final variant's
skip-without-certificate policy, produces exactly two outcomes: a Sent
outcome for Ana whose composed message carries the `Ana.pdf` primary
attachment, and a Skipped(NoAttachment) outcome for Bo, to whom no
message is sent. -/
theorem campaign_ana_bo_outcomes :
    finalRun (strL "s@x.com") (strL "Hi {name}") (strL "B") (fun _ => true)
      [certAnaS] [] [rowAna, rowBo] =
    ⟨[FOut.sent ⟨strL "s@x.com", strL "a@x.com", strL "Hi Ana", strL "B",
        [(strL "Ana.pdf", [7, 8, 9])]⟩,
      FOut.skippedNoCert (strL "bo")], none, 1⟩ := by
  rfl

/-- C4 (failing-input evaluation): in the final variant the constant
attachment's stream is read once per recipient without rewinding, so in a
campaign with two matched recipients and one constant attachment of bytes
`[1, 2, 3]`, the first composed message carries the full payload but the
second carries an empty one — not the identical full bytes the claim
requires. -/
theorem final_constant_attachment_stream_exhaustion :
    finalRun (strL "s@x.com") (strL "S") (strL "B") (fun _ => true)
      [certAnaS, certBoS] [constS] [rowAna, rowBo] =
    ⟨[FOut.sent ⟨strL "s@x.com", strL "a@x.com", strL "S", strL "B",
        [(strL "Ana.pdf", [7, 8, 9]), (strL "c.pdf", [1, 2, 3])]⟩,
      FOut.sent ⟨strL "s@x.com", strL "b@x.com", strL "S", strL "B",
        [(strL "Bo.pdf", [20, 21]), (strL "c.pdf", [])]⟩], none, 2⟩ ∧
    ([] : List Nat) ≠ [1, 2, 3] := by
  exact ⟨rfl, by decide⟩

/-- C6 (failing-input evaluation): the final variant's normalization maps
the display names `"John Doe"` and `"  JOHN   doe "` to the same key
`"johndoe"`, but the key derived from the file name `"John_Doe.pdf"` keeps
its underscore (`"john_doe"`), so the file does *not* match the recipient —
contradicting the claim and the application's own How-to-Use text, which
promises that `john_doe.pdf` matches `John Doe`. -/
theorem underscore_filename_key_mismatch :
    normKeyFinal (strL "John Doe") = strL "johndoe" ∧
    normKeyFinal (strL "  JOHN   doe ") = strL "johndoe" ∧
    certKeyFinal (strL "John_Doe.pdf") = strL "john_doe" ∧
    certKeyFinal (strL "John_Doe.pdf") ≠ normKeyFinal (strL "John Doe") := by
  decide

/-- C1 (counterexample): in the final variant there is no retry at all and
the recipient loop sits inside a single `try`/`except`, so with two
matched recipients and a transport that fails, the very first failed send
aborts the whole campaign: no Failed outcome is recorded and the second
recipient is never processed. -/
theorem final_transport_failure_aborts_campaign :
    finalRun (strL "s@x.com") (strL "S") (strL "B") (fun _ => false)
      [certAnaS, certBoS] [] [rowAna, rowBo] =
    ⟨[], some FAbort.sendErr, 1⟩ := by
  rfl

/-- C2 (counterexample): a subject template referencing a `{missing}`
field is not skipped without retry in either variant.  In the dynamic
variant the `KeyError` raised by `create_message` is caught by the retry
loop's own `except`, so all three attempts are consumed (two retry sleeps
included) and the recipient is recorded as failed-after-retries, not
skipped.  In the final variant the `KeyError` escapes to the `except`
around the whole loop and aborts the campaign with no outcome at all. -/
theorem missing_field_retried_and_aborts_cx :
    processDynRecip (strL "s@x.com") [] [] (strL "{missing}") (strL "B")
      (fun _ => true) rowAna =
      ⟨DynOut.failedAfterRetries, 3, 2,
        [Ev.sendAttempt, Ev.retrySleep, Ev.sendAttempt, Ev.retrySleep, Ev.sendAttempt]⟩ ∧
    finalRun (strL "s@x.com") (strL "{missing}") (strL "B") (fun _ => true)
      [certAnaS, certBoS] [] [rowAna, rowBo] =
    ⟨[], some (FAbort.templateErr (FmtErr.missingKey (strL "missing"))), 0⟩ := by
  exact ⟨rfl, rfl⟩

/-- C5 (counterexample): the final variant enters a fresh
`with smtplib.SMTP(...)` block for every matched recipient, so a campaign
that sends two messages opens two SMTP sessions, not one session opened
once before the loop. -/
theorem final_opens_session_per_recipient :
    (finalRun (strL "s@x.com") (strL "S") (strL "B") (fun _ => true)
      [certAnaS, certBoS] [] [rowAna, rowBo]).opens = 2 := by
  rfl

/-- C7 (counterexample): `match_certificate` tests containment against the
full lowercased file name, extension included, not against the
name-without-extension: the recipient key `"pdf"` matches the file
`"Bo.pdf"` even though `"pdf"` neither equals nor is contained in the
file's stem `"bo"`. -/
theorem match_certificate_matches_extension_cx :
    match_certificate [(strL "Bo.pdf", [1])] (strL "pdf") = some (strL "Bo.pdf", [1]) ∧
    containsSub (pyStrip (pyLower (strL "pdf"))) (pyLower (splitextStem (strL "Bo.pdf"))) = false ∧
    pyStrip (pyLower (strL "pdf")) ≠ pyLower (splitextStem (strL "Bo.pdf")) := by
  decide

/-- C9 (counterexample): in the dynamic variant newlines are *not*
converted to `<br>`: `main` collapses the authored content with
`' '.join(content_template.split())` and `_clean_text` collapses again
inside `create_message`, so the body template `"a\nb"` is sent as
`"a b"`, not as the `"a<br>b"` the claim requires for every sent
message. -/
theorem dyn_newlines_collapsed_cx :
    create_message (strL "s@x.com") rowAna (strL "S") (strL "a\nb") none [] =
      .ok ⟨strL "s@x.com", strL "a@x.com", strL "S", strL "a b", []⟩ ∧
    dynPrepareContent (strL "a\nb") = strL "a b" ∧
    replaceNl (strL "a\nb") = strL "a<br>b" ∧
    strL "a b" ≠ strL "a<br>b" := by
  exact ⟨rfl, rfl, rfl, by decide⟩

theorem containsSub_nil (l : List Char) : containsSub [] l = true := by
  cases l <;> simp [containsSub, startsWithL]

/-- C10: in the substring-containment matching of the dynamic variant, a
recipient whose name normalizes to the empty string is matched to the
*first* certificate of any non-empty list, because the empty string is
contained in every file name; such a recipient is never classified as
having no certificate while any primary file exists. -/
theorem empty_namekey_matches_first_certificate
    (c : BufFile) (cs : List BufFile) (name : List Char)
    (h : pyStrip (pyLower name) = []) :
    match_certificate (c :: cs) name = some c := by
  obtain ⟨nm, content⟩ := c
  simp [match_certificate, matchCertAux, h, containsSub_nil]

/-- Concrete instance of `empty_namekey_matches_first_certificate`: a
whitespace-only recipient name receives the first of two certificates. -/
theorem empty_namekey_matches_first_certificate_witness :
    pyStrip (pyLower (strL "   ")) = [] ∧
    match_certificate [(strL "Ana.pdf", [7, 8, 9]), (strL "Bo.pdf", [20, 21])]
      (strL "   ") = some (strL "Ana.pdf", [7, 8, 9]) :=
  ⟨by decide,
   empty_namekey_matches_first_certificate (strL "Ana.pdf", [7, 8, 9])
     [(strL "Bo.pdf", [20, 21])] (strL "   ") (by decide)⟩

theorem dynRetry_no_open (att : Nat → Option EmailMsg) :
    ∀ (fuel k d : Nat) (evs : List Ev),
      Ev.sessionOpen ∈ (dynRetry att fuel k d evs).events → Ev.sessionOpen ∈ evs := by
  intro fuel
  induction fuel with
  | zero => intro k d evs h; exact h
  | succ n ih =>
    intro k d evs h
    simp only [dynRetry] at h
    cases hat : att k with
    | some m =>
      rw [hat] at h
      simp only [List.mem_append] at h
      rcases h with h | h
      · exact h
      · simp at h
    | none =>
      rw [hat] at h
      by_cases hn : n = 0
      · subst hn
        rw [if_pos rfl] at h
        simp only [List.mem_append] at h
        rcases h with h | h
        · exact h
        · simp at h
      · rw [if_neg hn] at h
        have := ih (k + 1) (d + 1) (evs ++ [Ev.sendAttempt, Ev.retrySleep]) h
        simp only [List.mem_append] at this
        rcases this with h2 | h2
        · exact h2
        · simp at h2

theorem processDynRecip_no_open (sender : List Char) (certs consts : List BufFile)
    (subjT bodyT : List Char) (tr : Nat → Bool) (row : Row) :
    Ev.sessionOpen ∉ (processDynRecip sender certs consts subjT bodyT tr row).events := by
  intro h
  unfold processDynRecip at h
  have := dynRetry_no_open _ 3 0 0 [] h
  simp at this

theorem dynCampaignAux_no_open (sender : List Char) (certs consts : List BufFile)
    (subjT bodyT : List Char) (tr : Nat → Nat → Bool) :
    ∀ (rows : List Row) (j : Nat) (r : DynRes),
      r ∈ dynCampaignAux sender certs consts subjT bodyT tr j rows →
      Ev.sessionOpen ∉ r.events := by
  intro rows
  induction rows with
  | nil => intro j r h; simp [dynCampaignAux] at h
  | cons row rest ih =>
    intro j r h
    simp only [dynCampaignAux, List.mem_cons] at h
    rcases h with rfl | h
    · exact processDynRecip_no_open sender certs consts subjT bodyT (tr j) row
    · exact ih (j + 1) r h

theorem dynCampaignAux_getElem (sender : List Char) (certs consts : List BufFile)
    (subjT bodyT : List Char) (tr : Nat → Nat → Bool) :
    ∀ (rows : List Row) (j i : Nat),
      (dynCampaignAux sender certs consts subjT bodyT tr j rows)[i]? =
        (rows[i]?).map (processDynRecip sender certs consts subjT bodyT (tr (j + i))) := by
  intro rows
  induction rows with
  | nil => intro j i; simp [dynCampaignAux]
  | cons row rest ih =>
    intro j i
    cases i with
    | zero => simp [dynCampaignAux]
    | succ n =>
      have := ih (j + 1) n
      simp only [dynCampaignAux, List.getElem?_cons_succ, this]
      have harith : j + 1 + n = j + (n + 1) := by omega
      rw [harith]

/-- C1 (amended): in the dynamic variant each recipient whose message
builds successfully is attempted up to the fixed bound of 3 times with one
fixed inter-retry delay between consecutive attempts; after the bound is
exhausted the recipient is recorded as failed-after-retries and nothing
aborts (a transport that fails twice and succeeds on the third attempt
yields a Sent outcome with exactly two retry delays); and every
recipient's outcome in the campaign is exactly the outcome of processing
that recipient alone with its own transport slice, so one recipient's
permanent failure cannot alter the processing of any other recipient. -/
theorem dyn_retry_bound_and_recipient_isolation :
    (∀ (sender : List Char) (certs consts : List BufFile) (subjT bodyT : List Char)
        (tr : Nat → Bool) (row : Row) (m : EmailMsg),
        create_message sender row subjT bodyT
            (match_certificate certs (pyStrip ((assocLookup (strL "name") row).getD [])))
            consts = Except.ok m →
        (∀ k, tr k = false) →
        processDynRecip sender certs consts subjT bodyT tr row =
          ⟨DynOut.failedAfterRetries, 3, 2,
            [Ev.sendAttempt, Ev.retrySleep, Ev.sendAttempt, Ev.retrySleep,
             Ev.sendAttempt]⟩) ∧
    (∀ (sender : List Char) (certs consts : List BufFile) (subjT bodyT : List Char)
        (tr : Nat → Bool) (row : Row) (m : EmailMsg),
        create_message sender row subjT bodyT
            (match_certificate certs (pyStrip ((assocLookup (strL "name") row).getD [])))
            consts = Except.ok m →
        tr 0 = false → tr 1 = false → tr 2 = true →
        processDynRecip sender certs consts subjT bodyT tr row =
          ⟨DynOut.sent m, 3, 2,
            [Ev.sendAttempt, Ev.retrySleep, Ev.sendAttempt, Ev.retrySleep, Ev.sendAttempt,
             Ev.paceSleep]⟩) ∧
    (∀ (sender : List Char) (certs consts : List BufFile) (subjT bodyT : List Char)
        (tr : Nat → Nat → Bool) (rows : List Row) (i : Nat),
        (dynCampaign sender certs consts subjT bodyT tr rows)[i]? =
          (rows[i]?).map (processDynRecip sender certs consts subjT bodyT (tr i))) := by
  refine ⟨?_, ?_, ?_⟩
  · intro sender certs consts subjT bodyT tr row m hcm htr
    unfold processDynRecip
    rw [hcm]
    simp [dynRetry, attemptOf, htr]
  · intro sender certs consts subjT bodyT tr row m hcm h0 h1 h2
    unfold processDynRecip
    rw [hcm]
    simp [dynRetry, attemptOf, h0, h1, h2]
  · intro sender certs consts subjT bodyT tr rows i
    have := dynCampaignAux_getElem sender certs consts subjT bodyT tr rows 0 i
    simpa [dynCampaign] using this

/-- Concrete instance of `dyn_retry_bound_and_recipient_isolation`: an
always-failing transport for Ana consumes 3 attempts and 2 retry delays
and records a failure; a transport succeeding only on attempt 2 yields a
Sent outcome with the same two delays; and the second campaign entry is
exactly Bo processed alone. -/
theorem dyn_retry_bound_and_recipient_isolation_witness :
    processDynRecip (strL "s@x.com") [] [] (strL "S") (strL "B") (fun _ => false) rowAna =
      ⟨DynOut.failedAfterRetries, 3, 2,
        [Ev.sendAttempt, Ev.retrySleep, Ev.sendAttempt, Ev.retrySleep, Ev.sendAttempt]⟩ ∧
    processDynRecip (strL "s@x.com") [] [] (strL "S") (strL "B") (fun k => k == 2) rowAna =
      ⟨DynOut.sent ⟨strL "s@x.com", strL "a@x.com", strL "S", strL "B", []⟩, 3, 2,
        [Ev.sendAttempt, Ev.retrySleep, Ev.sendAttempt, Ev.retrySleep, Ev.sendAttempt,
         Ev.paceSleep]⟩ ∧
    (dynCampaign (strL "s@x.com") [] [] (strL "S") (strL "B") (fun _ _ => false)
        [rowAna, rowBo])[1]? =
      some (processDynRecip (strL "s@x.com") [] [] (strL "S") (strL "B") (fun _ => false)
        rowBo) := by
  refine ⟨?_, ?_, ?_⟩
  · exact dyn_retry_bound_and_recipient_isolation.1 (strL "s@x.com") [] [] (strL "S")
      (strL "B") (fun _ => false) rowAna
      ⟨strL "s@x.com", strL "a@x.com", strL "S", strL "B", []⟩ rfl (fun _ => rfl)
  · exact dyn_retry_bound_and_recipient_isolation.2.1 (strL "s@x.com") [] [] (strL "S")
      (strL "B") (fun k => k == 2) rowAna
      ⟨strL "s@x.com", strL "a@x.com", strL "S", strL "B", []⟩ rfl rfl rfl rfl
  · have := dyn_retry_bound_and_recipient_isolation.2.2 (strL "s@x.com") [] [] (strL "S")
      (strL "B") (fun _ _ => false) [rowAna, rowBo] 1
    simpa using this

/-- C2 (amended): a template placeholder referencing a field absent from
the row does not produce a retry-free skip in either variant.  In the
dynamic variant `create_message` raises inside the retry loop's `try`, so
the recipient consumes all 3 attempts and 2 retry delays and is recorded
as failed-after-retries (the loop then moves on).  In the final variant
the `KeyError` escapes the per-recipient code and aborts the loop,
discarding every remaining recipient. -/
theorem dyn_missing_field_failed_after_retries :
    (∀ (sender : List Char) (certs consts : List BufFile) (subjT bodyT : List Char)
        (tr : Nat → Bool) (row : Row) (e : FmtErr),
        create_message sender row subjT bodyT
            (match_certificate certs (pyStrip ((assocLookup (strL "name") row).getD [])))
            consts = Except.error e →
        processDynRecip sender certs consts subjT bodyT tr row =
          ⟨DynOut.failedAfterRetries, 3, 2,
            [Ev.sendAttempt, Ev.retrySleep, Ev.sendAttempt, Ev.retrySleep,
             Ev.sendAttempt]⟩) ∧
    (∀ (senderE subjT bodyT : List Char) (tr : Nat → Bool)
        (dict : List (List Char × Nat)) (st : FinalSt) (row : Row) (rest : List Row)
        (e : FmtErr) (idx : Nat),
        assocLookup (normKeyFinal ((assocLookup (strL "name") row).getD [])) dict
          = some idx →
        formatTemplate row subjT = Except.error e →
        finalLoop senderE subjT bodyT tr dict st (row :: rest) =
          ⟨[], some (FAbort.templateErr e), st.opens⟩) := by
  constructor
  · intro sender certs consts subjT bodyT tr row e hcm
    unfold processDynRecip
    rw [hcm]
    simp [dynRetry, attemptOf]
  · intro senderE subjT bodyT tr dict st row rest e idx h1 h2
    simp [finalLoop, finalStep, h1, h2]

/-- Concrete instance of `dyn_missing_field_failed_after_retries`: the
subject template `{missing}` against Ana's row fails the build on every
attempt in the dynamic variant, and aborts the final variant's loop with
Bo still unprocessed. -/
theorem dyn_missing_field_failed_after_retries_witness :
    processDynRecip (strL "s@x.com") [] [] (strL "{missing}") (strL "B")
      (fun _ => false) rowAna =
      ⟨DynOut.failedAfterRetries, 3, 2,
        [Ev.sendAttempt, Ev.retrySleep, Ev.sendAttempt, Ev.retrySleep, Ev.sendAttempt]⟩ ∧
    finalLoop (strL "s@x.com") (strL "{missing}") (strL "B") (fun _ => true)
      [(strL "ana", 0)] ⟨[certAnaS], [], 0, 0⟩ [rowAna, rowBo] =
      ⟨[], some (FAbort.templateErr (FmtErr.missingKey (strL "missing"))), 0⟩ := by
  constructor
  · exact dyn_missing_field_failed_after_retries.1 (strL "s@x.com") [] [] (strL "{missing}")
      (strL "B") (fun _ => false) rowAna (FmtErr.missingKey (strL "missing")) rfl
  · exact dyn_missing_field_failed_after_retries.2 (strL "s@x.com") (strL "{missing}")
      (strL "B") (fun _ => true) [(strL "ana", 0)] ⟨[certAnaS], [], 0, 0⟩ rowAna [rowBo]
      (FmtErr.missingKey (strL "missing")) 0 rfl rfl

/-- C5 (amended): in the dynamic variant the SMTP session is opened
exactly once per run — `setup_smtp` before the loop — and no per-recipient
processing ever opens another session, whatever the recipients,
certificates, templates or transport behaviour (including recipients
whose sends failed on all attempts). -/
theorem dyn_session_opened_once :
    ∀ (sender : List Char) (certs consts : List BufFile) (subjT bodyT : List Char)
      (tr : Nat → Nat → Bool) (rows : List Row),
      (dynRunEvents sender certs consts subjT bodyT tr rows).count Ev.sessionOpen = 1 := by
  intro sender certs consts subjT bodyT tr rows
  unfold dynRunEvents
  have hflat : Ev.sessionOpen ∉
      ((dynCampaign sender certs consts subjT bodyT tr rows).map DynRes.events).flatten := by
    intro h
    rcases List.mem_flatten.mp h with ⟨evl, hevl, hmem⟩
    rcases List.mem_map.mp hevl with ⟨r, hr, hre⟩
    rw [← hre] at hmem
    exact dynCampaignAux_no_open sender certs consts subjT bodyT tr rows 0 r hr hmem
  rw [List.count_append, List.count_cons_self, List.count_eq_zero.mpr hflat]
  decide

theorem matchCertAux_eq_none_iff (key : List Char) :
    ∀ certs : List BufFile, (matchCertAux key certs = none ↔
      ∀ c ∈ certs, containsSub key (pyLower c.1) = false) := by
  intro certs
  induction certs with
  | nil => simp [matchCertAux]
  | cons c rest ih =>
    obtain ⟨nm, ct⟩ := c
    by_cases hc : containsSub key (pyLower nm) = true
    · simp [matchCertAux, hc]
    · simp only [Bool.not_eq_true] at hc
      simp [matchCertAux, hc, ih]

theorem matchCertAux_eq_some (key : List Char) :
    ∀ (certs : List BufFile) (c : BufFile), matchCertAux key certs = some c →
      ∃ i, ∃ h : i < certs.length, certs[i] = c ∧
        containsSub key (pyLower c.1) = true ∧
        ∀ j (hj : j < certs.length), j < i →
          containsSub key (pyLower (certs[j]).1) = false := by
  intro certs
  induction certs with
  | nil => intro c h; simp [matchCertAux] at h
  | cons hd rest ih =>
    obtain ⟨nm, ct⟩ := hd
    intro c h
    by_cases hc : containsSub key (pyLower nm) = true
    · rw [matchCertAux, if_pos hc] at h
      refine ⟨0, by simp, ?_, ?_, ?_⟩
      · simpa using h
      · rw [← Option.some_inj.mp h]; exact hc
      · intro j hj hj0; omega
    · simp only [Bool.not_eq_true] at hc
      rw [matchCertAux, if_neg (by simp [hc])] at h
      obtain ⟨i, hi, hget, hcnt, hmin⟩ := ih c h
      refine ⟨i + 1, by simpa using Nat.succ_lt_succ hi, by simpa using hget, hcnt, ?_⟩
      intro j hj hlt
      cases j with
      | zero => simpa using hc
      | succ j2 =>
        have hj2 : j2 < rest.length := by simpa using hj
        have := hmin j2 hj2 (by omega)
        simpa using this

/-- C7 (amended): `match_certificate` returns none exactly when no file's
full lowercased name (extension included) contains the lowercased,
stripped recipient name as a substring; when it returns a file, that file
is the *first* such match in the sequence; and a none result is not an
error — the dynamic variant then processes the recipient exactly as if no
certificates existed at all, sending without a primary attachment. -/
theorem match_certificate_first_substring_characterization :
    (∀ (certs : List BufFile) (name : List Char),
        match_certificate certs name = none ↔
          ∀ c ∈ certs, containsSub (pyStrip (pyLower name)) (pyLower c.1) = false) ∧
    (∀ (certs : List BufFile) (name : List Char) (c : BufFile),
        match_certificate certs name = some c →
          ∃ i, ∃ h : i < certs.length, certs[i] = c ∧
            containsSub (pyStrip (pyLower name)) (pyLower c.1) = true ∧
            ∀ j (hj : j < certs.length), j < i →
              containsSub (pyStrip (pyLower name)) (pyLower (certs[j]).1) = false) ∧
    (∀ (sender : List Char) (certs consts : List BufFile) (subjT bodyT : List Char)
        (tr : Nat → Bool) (row : Row),
        match_certificate certs (pyStrip ((assocLookup (strL "name") row).getD [])) = none →
        processDynRecip sender certs consts subjT bodyT tr row =
          processDynRecip sender [] consts subjT bodyT tr row) := by
  refine ⟨?_, ?_, ?_⟩
  · intro certs name
    exact matchCertAux_eq_none_iff _ certs
  · intro certs name c h
    exact matchCertAux_eq_some _ certs c h
  · intro sender certs consts subjT bodyT tr row h
    unfold processDynRecip
    rw [h]
    rfl

/-- Concrete instance of
`match_certificate_first_substring_characterization`: the key `"zz"`
matches nothing, and the unmatched recipient Bo is processed exactly as
with an empty certificate list. -/
theorem match_certificate_first_substring_characterization_witness :
    match_certificate [(strL "Ana.pdf", [7, 8, 9])] (strL "zz") = none ∧
    processDynRecip (strL "s@x.com") [(strL "Ana.pdf", [7, 8, 9])] [] (strL "S")
      (strL "B") (fun _ => true) rowBo =
      processDynRecip (strL "s@x.com") [] [] (strL "S") (strL "B") (fun _ => true) rowBo := by
  constructor
  · exact (match_certificate_first_substring_characterization.1
      [(strL "Ana.pdf", [7, 8, 9])] (strL "zz")).mpr (by decide)
  · exact match_certificate_first_substring_characterization.2.2 (strL "s@x.com")
      [(strL "Ana.pdf", [7, 8, 9])] [] (strL "S") (strL "B") (fun _ => true) rowBo
      (by decide)

theorem replaceNl_append (a b : List Char) :
    replaceNl (a ++ b) = replaceNl a ++ replaceNl b := by
  simp [replaceNl]

theorem replaceNl_no_nl : ∀ l : List Char, (∀ c ∈ l, c ≠ '\n') → replaceNl l = l := by
  intro l
  induction l with
  | nil => intro _; rfl
  | cons c rest ih =>
    intro h
    have hc : c ≠ '\n' := h c (by simp)
    simp only [replaceNl, List.map_cons, List.flatten_cons, if_neg hc]
    have := ih (fun x hx => h x (by simp [hx]))
    simp only [replaceNl] at this
    rw [this]
    rfl

theorem replaceNl_interJoin :
    ∀ lines : List (List Char), (∀ l ∈ lines, ∀ c ∈ l, c ≠ '\n') →
      replaceNl (interJoin ['\n'] lines) = interJoin (strL "<br>") lines := by
  intro lines
  induction lines with
  | nil => intro _; rfl
  | cons x rest ih =>
    cases rest with
    | nil =>
      intro h
      simp only [interJoin]
      exact replaceNl_no_nl x (h x (by simp))
    | cons y rest2 =>
      intro h
      simp only [interJoin]
      rw [replaceNl_append, replaceNl_append]
      rw [replaceNl_no_nl x (h x (by simp))]
      rw [ih (fun l hl => h l (by simp [hl]))]
      rfl

/-- C9 (amended, final variant): the final variant converts every newline
of the authored body to the `<br>` marker *before* placeholder
substitution, so a body authored as newline-joined lines renders exactly
as the same lines joined by `<br>` and then substituted — the line
structure of the authored content is preserved in the rendered HTML
body.  (The dynamic variant does not do this; see the counterexample.) -/
theorem final_body_newline_to_br_before_subst :
    ∀ (lines : List (List Char)) (flds : Row),
      (∀ l ∈ lines, ∀ c ∈ l, c ≠ '\n') →
      finalRenderBody flds (interJoin ['\n'] lines) =
        formatTemplate flds (interJoin (strL "<br>") lines) := by
  intro lines flds h
  unfold finalRenderBody
  rw [replaceNl_interJoin lines h]

/-- Concrete instance of `final_body_newline_to_br_before_subst`: a
two-line body with a placeholder renders with its line break preserved as
`<br>` and the placeholder substituted afterwards. -/
theorem final_body_newline_to_br_before_subst_witness :
    finalRenderBody [(strL "name", strL "Ana")] (strL "Hello {name}\nBye") =
      Except.ok (strL "Hello Ana<br>Bye") := by
  have h := final_body_newline_to_br_before_subst [strL "Hello {name}", strL "Bye"]
    [(strL "name", strL "Ana")] (by decide)
  have he : interJoin ['\n'] [strL "Hello {name}", strL "Bye"] =
      strL "Hello {name}\nBye" := rfl
  rw [he] at h
  rw [h]
  rfl

theorem headIs_iff (c : Char) (l : List Char) : headIs c l = true ↔ ∃ t, l = c :: t := by
  cases l with
  | nil => simp [headIs]
  | cons x xs =>
    simp only [headIs, beq_iff_eq, List.cons.injEq]
    constructor
    · intro h; exact ⟨xs, h, rfl⟩
    · rintro ⟨t, hx, -⟩; exact hx

theorem drop_succ_of_drop_cons {s : List Char} {i : Nat} {c : Char} {t : List Char}
    (h : s.drop i = c :: t) : s.drop (i + 1) = t := by
  rw [← List.tail_drop, h]
  rfl

theorem domainMatch_iff (s2 : List Char) :
    domainMatch s2 = true ↔
      ∃ d t, s2 = d ++ '.' :: t ∧ d ≠ [] ∧ d.all isDomainChar = true ∧
        t.all isAsciiAlpha = true ∧ 2 ≤ t.length := by
  unfold domainMatch
  rw [List.any_eq_true]
  constructor
  · rintro ⟨j, hjr, hp⟩
    simp only [Bool.and_eq_true, Bool.not_eq_true'] at hp
    obtain ⟨⟨⟨h1, h2⟩, h3⟩, h4⟩ := hp
    obtain ⟨rest, hrest⟩ := (headIs_iff _ _).mp h1
    have hdrop1 : s2.drop (j + 1) = rest := drop_succ_of_drop_cons hrest
    simp only [tldOk, Bool.and_eq_true, decide_eq_true_eq] at h4
    refine ⟨s2.take j, rest, ?_, ?_, h3, ?_, ?_⟩
    · calc s2 = s2.take j ++ s2.drop j := (List.take_append_drop j s2).symm
        _ = s2.take j ++ '.' :: rest := by rw [hrest]
    · intro he
      rw [he] at h2
      simp at h2
    · rw [← hdrop1]; exact h4.1
    · rw [← hdrop1]; exact h4.2
  · rintro ⟨d, t, rfl, hd, hda, hta, htl⟩
    refine ⟨d.length, ?_, ?_⟩
    · rw [List.mem_range]
      simp only [List.length_append, List.length_cons]
      omega
    · simp only [Bool.and_eq_true, Bool.not_eq_true']
      have hdrop : (d ++ '.' :: t).drop d.length = '.' :: t := List.drop_left d ('.' :: t)
      have htake : (d ++ '.' :: t).take d.length = d := List.take_left d ('.' :: t)
      have hdrop1 : (d ++ '.' :: t).drop (d.length + 1) = t := by
        have hre : d ++ '.' :: t = (d ++ ['.']) ++ t := by simp
        have hlen : (d ++ ['.']).length = d.length + 1 := by simp
        rw [hre, ← hlen, List.drop_left]
      refine ⟨⟨⟨?_, ?_⟩, ?_⟩, ?_⟩
      · rw [hdrop]; simp [headIs]
      · rw [htake]; simp [List.isEmpty_iff, hd]
      · rw [htake]; exact hda
      · rw [hdrop1]; simp [tldOk, hta, htl]

theorem emailMatch_iff (s : List Char) : emailMatch s = true ↔ docPattern s := by
  unfold emailMatch docPattern
  rw [List.any_eq_true]
  constructor
  · rintro ⟨i, hir, hp⟩
    simp only [Bool.and_eq_true, Bool.not_eq_true'] at hp
    obtain ⟨⟨⟨h1, h2⟩, h3⟩, h4⟩ := hp
    obtain ⟨rest, hrest⟩ := (headIs_iff _ _).mp h1
    have hdrop1 : s.drop (i + 1) = rest := drop_succ_of_drop_cons hrest
    rw [hdrop1] at h4
    obtain ⟨d, t, hsplit, hd, hda, hta, htl⟩ := (domainMatch_iff rest).mp h4
    refine ⟨s.take i, d, t, ?_, ?_, h3, hd, hda, hta, htl⟩
    · calc s = s.take i ++ s.drop i := (List.take_append_drop i s).symm
        _ = s.take i ++ '@' :: rest := by rw [hrest]
        _ = s.take i ++ '@' :: (d ++ '.' :: t) := by rw [hsplit]
    · intro he
      rw [he] at h2
      simp at h2
  · rintro ⟨loc, d, t, rfl, hloc, hla, hd, hda, hta, htl⟩
    refine ⟨loc.length, ?_, ?_⟩
    · rw [List.mem_range]
      simp only [List.length_append, List.length_cons]
      omega
    · simp only [Bool.and_eq_true, Bool.not_eq_true']
      have hdrop : (loc ++ '@' :: (d ++ '.' :: t)).drop loc.length = '@' :: (d ++ '.' :: t) :=
        List.drop_left loc ('@' :: (d ++ '.' :: t))
      have htake : (loc ++ '@' :: (d ++ '.' :: t)).take loc.length = loc :=
        List.take_left loc ('@' :: (d ++ '.' :: t))
      have hdrop1 : (loc ++ '@' :: (d ++ '.' :: t)).drop (loc.length + 1) = d ++ '.' :: t := by
        have hre : loc ++ '@' :: (d ++ '.' :: t) = (loc ++ ['@']) ++ (d ++ '.' :: t) := by simp
        have hlen : (loc ++ ['@']).length = loc.length + 1 := by simp
        rw [hre, ← hlen, List.drop_left]
      refine ⟨⟨⟨?_, ?_⟩, ?_⟩, ?_⟩
      · rw [hdrop]; simp [headIs]
      · rw [htake]; simp [List.isEmpty_iff, hloc]
      · rw [htake]; exact hla
      · rw [hdrop1]
        exact (domainMatch_iff (d ++ '.' :: t)).mpr ⟨d, t, rfl, hd, hda, hta, htl⟩

theorem concat_inj_char {u v : List Char} {c d : Char} (h : u ++ [c] = v ++ [d]) :
    u = v ∧ c = d := by
  have hl : u.length = v.length := by
    have := congrArg List.length h
    simp at this
    exact this
  obtain ⟨h1, h2⟩ := List.append_inj h hl
  exact ⟨h1, by simpa using h2⟩

theorem is_valid_email_iff (s : List Char) :
    is_valid_email s = true ↔ docPattern s ∨ ∃ u, docPattern u ∧ s = u ++ ['\n'] := by
  rcases List.eq_nil_or_concat s with rfl | ⟨u, c, hs⟩
  · constructor
    · intro h
      simp [is_valid_email, emailMatch] at h
    · rintro (h | ⟨u, hu, he⟩)
      · exfalso
        obtain ⟨loc, d, t, hsplit, hloc, _⟩ := h
        have := congrArg List.length hsplit
        simp [List.length_append] at this
        omega
      · exfalso
        have := congrArg List.length he
        simp at this
  · rw [List.concat_eq_append] at hs
    subst hs
    constructor
    · intro h
      unfold is_valid_email at h
      rw [List.getLast?_concat, List.dropLast_concat] at h
      simp only [Bool.or_eq_true, Bool.and_eq_true, beq_iff_eq] at h
      rcases h with h | ⟨hc, hm⟩
      · exact Or.inl ((emailMatch_iff _).mp h)
      · exact Or.inr ⟨u, (emailMatch_iff _).mp hm, by rw [hc]⟩
    · intro h
      unfold is_valid_email
      rw [List.getLast?_concat, List.dropLast_concat]
      simp only [Bool.or_eq_true, Bool.and_eq_true, beq_iff_eq]
      rcases h with h | ⟨v, hv, he⟩
      · exact Or.inl ((emailMatch_iff _).mpr h)
      · obtain ⟨h1, h2⟩ := concat_inj_char he
        subst h1
        exact Or.inr ⟨h2, (emailMatch_iff _).mpr hv⟩

theorem docPattern_at_mem {u : List Char} (h : docPattern u) : '@' ∈ u := by
  obtain ⟨loc, d, t, rfl, _⟩ := h
  simp

theorem hasDot_of_parts (l₁ : List Char) (a b : Char) (l₂ : List Char)
    (ha : isAsciiAlpha a = true) (hb : isAsciiAlpha b = true) :
    hasDotTwoAlpha (l₁ ++ '.' :: a :: b :: l₂) = true := by
  unfold hasDotTwoAlpha
  rw [List.any_eq_true]
  refine ⟨l₁.length, ?_, ?_⟩
  · rw [List.mem_range]
    simp only [List.length_append, List.length_cons]
    omega
  · have h0 : (l₁ ++ '.' :: a :: b :: l₂).drop l₁.length = '.' :: a :: b :: l₂ :=
      List.drop_left _ _
    have h1 : (l₁ ++ '.' :: a :: b :: l₂).drop (l₁.length + 1) = a :: b :: l₂ :=
      drop_succ_of_drop_cons h0
    have h2 : (l₁ ++ '.' :: a :: b :: l₂).drop (l₁.length + 2) = b :: l₂ :=
      drop_succ_of_drop_cons h1
    rw [h0, h1, h2]
    simp [headIs, headAlpha, ha, hb]

theorem docPattern_dot_parts {u : List Char} (h : docPattern u) :
    ∃ pre a b post, u = pre ++ '.' :: a :: b :: post ∧
      isAsciiAlpha a = true ∧ isAsciiAlpha b = true := by
  obtain ⟨loc, d, t, rfl, hloc, hla, hd, hda, hta, htl⟩ := h
  rcases t with _ | ⟨a, t2⟩
  · exfalso; simp at htl
  rcases t2 with _ | ⟨b, post⟩
  · exfalso; simp at htl
  simp only [List.all_cons, Bool.and_eq_true] at hta
  refine ⟨loc ++ '@' :: d, a, b, post, ?_, hta.1, hta.2.1⟩
  simp

theorem takeWhile_append_at (l₁ l₂ : List Char) (h : ∀ c ∈ l₁, (c != '@') = true) :
    (l₁ ++ '@' :: l₂).takeWhile (fun c => c != '@') = l₁ := by
  induction l₁ with
  | nil => simp [List.takeWhile_cons]
  | cons x xs ih =>
    have hx := h x (by simp)
    simp only [List.cons_append, List.takeWhile_cons, hx, if_true]
    rw [ih (fun c hc => h c (by simp [hc]))]

theorem isLocalChar_ne_at {c : Char} (h : isLocalChar c = true) : (c != '@') = true := by
  by_cases hc : c = '@'
  · subst hc
    exact absurd h (by decide)
  · simpa using hc

theorem docPattern_localPart {u : List Char} (h : docPattern u) (ext : List Char) :
    (localPart (u ++ ext)).all isLocalChar = true := by
  obtain ⟨loc, d, t, rfl, hloc, hla, _⟩ := h
  have hre : (loc ++ '@' :: (d ++ '.' :: t)) ++ ext =
      loc ++ '@' :: ((d ++ '.' :: t) ++ ext) := by simp
  rw [hre]
  unfold localPart
  rw [takeWhile_append_at loc _ (fun c hc => isLocalChar_ne_at (List.all_eq_true.mp hla c hc))]
  exact hla

/-- C8: `is_valid_email` accepts every string matching the documented
pattern (local part of allowed characters, `@`, domain, dot, 2+-letter
TLD), and rejects every string with no `@`, every string containing no
dot followed by two letters (hence missing any 2+-letter TLD after a
dot), and every string whose local part — the segment before the first
`@` — contains a character outside the allowed set. -/
theorem is_valid_email_pattern_claims :
    ∀ s : List Char,
      (docPattern s → is_valid_email s = true) ∧
      ('@' ∉ s → is_valid_email s = false) ∧
      (hasDotTwoAlpha s = false → is_valid_email s = false) ∧
      ((∃ c ∈ localPart s, isLocalChar c = false) → is_valid_email s = false) := by
  intro s
  refine ⟨?_, ?_, ?_, ?_⟩
  · intro h
    exact (is_valid_email_iff s).mpr (Or.inl h)
  · intro hna
    cases hb : is_valid_email s with
    | false => rfl
    | true =>
      exfalso
      rcases (is_valid_email_iff s).mp hb with h | ⟨u, hu, rfl⟩
      · exact hna (docPattern_at_mem h)
      · exact hna (List.mem_append.mpr (Or.inl (docPattern_at_mem hu)))
  · intro hnd
    cases hb : is_valid_email s with
    | false => rfl
    | true =>
      exfalso
      have hdot : hasDotTwoAlpha s = true := by
        rcases (is_valid_email_iff s).mp hb with h | ⟨u, hu, rfl⟩
        · obtain ⟨pre, a, b2, post, rfl, ha, hb2⟩ := docPattern_dot_parts h
          exact hasDot_of_parts pre a b2 post ha hb2
        · obtain ⟨pre, a, b2, post, hu2, ha, hb2⟩ := docPattern_dot_parts hu
          rw [hu2]
          have hre : (pre ++ '.' :: a :: b2 :: post) ++ ['\n'] =
              pre ++ '.' :: a :: b2 :: (post ++ ['\n']) := by simp
          rw [hre]
          exact hasDot_of_parts pre a b2 (post ++ ['\n']) ha hb2
      rw [hdot] at hnd
      exact absurd hnd (by decide)
  · rintro ⟨c, hcmem, hcbad⟩
    cases hb : is_valid_email s with
    | false => rfl
    | true =>
      exfalso
      have hall : (localPart s).all isLocalChar = true := by
        rcases (is_valid_email_iff s).mp hb with h | ⟨u, hu, rfl⟩
        · have := docPattern_localPart h []
          simpa using this
        · exact docPattern_localPart hu ['\n']
      have := List.all_eq_true.mp hall c hcmem
      rw [hcbad] at this
      exact absurd this (by decide)

/-- Concrete instances of `is_valid_email_pattern_claims`: a
pattern-matching address is accepted; strings without `@`, without any
dot-plus-two-letters, or with a space in the local part are rejected. -/
theorem is_valid_email_pattern_claims_witness :
    is_valid_email (strL "ana@mail.com") = true ∧
    is_valid_email (strL "anamail.com") = false ∧
    is_valid_email (strL "ana@mailcom") = false ∧
    is_valid_email (strL "an a@mail.com") = false := by
  refine ⟨?_, ?_, ?_, ?_⟩
  · exact (is_valid_email_pattern_claims (strL "ana@mail.com")).1
      ⟨strL "ana", strL "mail", strL "com", by decide, by decide, by decide, by decide,
       by decide, by decide, by decide⟩
  · exact (is_valid_email_pattern_claims (strL "anamail.com")).2.1 (by decide)
  · exact (is_valid_email_pattern_claims (strL "ana@mailcom")).2.2.1 (by decide)
  · exact (is_valid_email_pattern_claims (strL "an a@mail.com")).2.2.2
      ⟨' ', by decide, by decide⟩
